import Mathlib

/-!
Shallow embedding of `examples/td_agent.py` from the gym-tictactoe
repository: the tabular TD(0) agent, its value store, the training-loop
terminal handling, model persistence and the benchmark tally.

Board cells carry the numeric codes used by the environment (0 = empty,
1 = O, 2 = X); marks are the characters used by the source.  Python
floats are modelled as rationals.
-/

namespace TdAgent

set_option maxRecDepth 10000

abbrev Board := List ℕ

abbrev Mark := Char

abbrev GameState := Board × Mark

/-- Modelled from the spec: the environment collaborator's mark coding
(`tocode` in `gym_tictactoe.env`, not under `src/`): O is 1, X is 2. -/
def tocode (m : Mark) : ℕ := if m = 'O' then 1 else 2

/-- Modelled from the spec: the environment collaborator's mark rotation
(`next_mark` in `gym_tictactoe.env`, not under `src/`). -/
def next_mark (m : Mark) : Mark := if m = 'O' then 'X' else 'O'

/-- Modelled from the spec: the environment's terminal reward for an O win
(reward range {-1, 0, 1}; +1 counts wins for the O side). -/
def O_REWARD : ℚ := 1

/-- Modelled from the spec: the environment's terminal reward for an X win
(-1 counts wins for the X side). -/
def X_REWARD : ℚ := -1

/-- The eight winning index triples of the 3x3 board. -/
def winLines : List (ℕ × ℕ × ℕ) :=
  [(0, 1, 2), (3, 4, 5), (6, 7, 8),
   (0, 3, 6), (1, 4, 7), (2, 5, 8),
   (0, 4, 8), (2, 4, 6)]

/-- Whether the mark with code `t` occupies the whole line `(i, j, k)`. -/
def lineWonBy (b : Board) (t : ℕ) (ln : ℕ × ℕ × ℕ) : Bool :=
  b.getD ln.1 0 = t && b.getD ln.2.1 0 = t && b.getD ln.2.2 0 = t

/-- Modelled from the spec: the environment collaborator's
`check_game_status(board) -> status code indicating ongoing/draw/win-for-mark`
(not under `src/`): 1 or 2 when that mark's code has a completed line
(code 1 checked first), 0 on a full board with no winner, -1 otherwise. -/
def check_game_status (b : Board) : Int :=
  if winLines.any (lineWonBy b 1) then 1
  else if winLines.any (lineWonBy b 2) then 2
  else if b.any (· = 0) then -1
  else 0

/-- Modelled from the spec: the environment collaborator's pure
`after_action_state(state, action) -> state` (not under `src/`): place the
acting mark's code at the chosen cell and rotate the mark to move. -/
def after_action_state (state : GameState) (action : ℕ) : GameState :=
  (state.1.set action (tocode state.2), next_mark state.2)

/-- Source line 23: `DEFAULT_VALUE = 0`. -/
def DEFAULT_VALUE : ℚ := 0

/-- Source line 27: `EPSILON = 0.3`. -/
def EPSILON : ℚ := 3 / 10

/-- Source line 28: `ALPHA = 0.4`. -/
def ALPHA : ℚ := 2 / 5

/-- Lookup in a Python-dict model: the value of the first entry with the
given key. -/
def dget : List (GameState × ℚ) → GameState → Option ℚ
  | [], _ => none
  | (k', v) :: rest, k => if k' = k then some v else dget rest k

/-- Update in a Python-dict model: overwrite the first entry with the given
key in place, or append a fresh entry. -/
def dset (d : List (GameState × ℚ)) (k : GameState) (v : ℚ) :
    List (GameState × ℚ) :=
  match d with
  | [] => [(k, v)]
  | (k', v') :: rest =>
      if k' = k then (k, v) :: rest else (k', v') :: dset rest k v

/-- The module-level tables of the source (lines 31-32): `st_values` is a
dict from state to value, `st_visits` a `defaultdict(lambda: 0)` modelled
as a total function defaulting to 0. -/
structure Store where
  st_values : List (GameState × ℚ)
  st_visits : GameState → ℕ

/-- The tables at interpreter start: both empty. -/
def emptyStore : Store :=
  { st_values := [], st_visits := fun _ => 0 }

/-- Source lines 35-37: `set_state_value` bumps the visit counter and
overwrites the value. -/
def set_state_value (s : Store) (state : GameState) (value : ℚ) : Store :=
  { st_values := dset s.st_values state value,
    st_visits := fun k =>
      if k = state then s.st_visits k + 1 else s.st_visits k }

/-- Model of Python's builtin `max` on a (nonempty) list; on `[]` the
source would raise, here the value is an unused default. -/
def pymax (l : List ℚ) : ℚ := l.foldl max (l.headD 0)

/-- Model of Python's builtin `min` on a (nonempty) list; on `[]` the
source would raise, here the value is an unused default. -/
def pymin (l : List ℚ) : ℚ := l.foldl min (l.headD 0)

/-- Source lines 40-42: indices of the entries equal to `fn(values)`. -/
def best_val_indices (values : List ℚ) (fn : List ℚ → ℚ) : List ℕ :=
  (List.range values.length).filter (fun i => decide (values.getD i 0 = fn values))

/-- Source lines 46-50: the TD agent's constructor fields. `episode_rate`
starts at 1 and is reassigned by the training loop. -/
structure TDAgent where
  mark : Mark
  epsilon : ℚ
  alpha : ℚ
  episode_rate : ℚ

/-- Source lines 118-137: `ask_value` returns the stored value, lazily
inserting (via `set_state_value`) `DEFAULT_VALUE` for an unseen state, or
the asking agent's own mark's terminal reward when
`check_game_status(state[0]) > 0`. Returns the value together with the
updated tables. -/
def ask_value (mark : Mark) (s : Store) (state : GameState) : ℚ × Store :=
  match dget s.st_values state with
  | some v => (v, s)
  | none =>
      let gstatus := check_game_status state.1
      let val := if gstatus > 0
        then (if mark = 'O' then O_REWARD else X_REWARD)
        else DEFAULT_VALUE
      (val, set_state_value s state val)

/-- Source lines 139-158: `backup` reads both states' values through
`ask_value` (the `reward` argument is unused by the source), then writes
`val + alpha * (nval - val)` for `state` through `set_state_value`. -/
def backup (agent : TDAgent) (s : Store) (state nstate : GameState)
    (reward : ℚ) : Store :=
  let r1 := ask_value agent.mark s state
  let r2 := ask_value agent.mark r1.2 nstate
  let diff := r2.1 - r1.1
  let val2 := r1.1 + agent.alpha * diff
  set_state_value r2.2 state val2

/-- Source lines 94-101: the value-collection loop of `greedy_action` —
one `ask_value` per available action on the successor state, threading the
table updates left to right. -/
def ask_values (mark : Mark) (s : Store) (state : GameState) :
    List ℕ → List ℚ × Store
  | [] => ([], s)
  | a :: rest =>
      let r := ask_value mark s (after_action_state state a)
      let rr := ask_values mark r.2 state rest
      (r.1 :: rr.1, rr.2)

/-- Source lines 80-116: `greedy_action`. The empty-list case models the
`assert len(ava_actions) > 0` failure as `none`. `rchoice` stands for
`random.choice` applied to the list of optimal indices; the maximizing
side is mark 'O'. -/
def greedy_action (agent : TDAgent) (s : Store) (state : GameState)
    (ava_actions : List ℕ) (rchoice : List ℕ → ℕ) : Option (ℕ × Store) :=
  match ava_actions with
  | [] => none
  | _ :: _ =>
      let r := ask_values agent.mark s state ava_actions
      let indices := if agent.mark = 'O'
        then best_val_indices r.1 pymax
        else best_val_indices r.1 pymin
      let aidx := rchoice indices
      some (ava_actions.getD aidx 0, r.2)

/-- Source lines 210-216, the body of `_learn`'s turn loop on the final
(`done`) iteration: `agent.backup(state, nstate, reward)` followed by
`set_state_value(state, reward)` — note the write targets `state`, the
state from which the final action was taken, not `nstate`. -/
def learn_step_done (agent : TDAgent) (s : Store) (state nstate : GameState)
    (reward : ℚ) : Store :=
  set_state_value (backup agent s state nstate reward) state reward

/-- Source lines 377-379 of `_bench`: count rewards equal to 1 as baseline
(O) wins, rewards equal to -1 as trained-agent (X) wins, and the remaining
episodes as draws. -/
def bench_tally (results : List ℚ) : ℕ × ℕ × ℕ :=
  let o_win := results.count 1
  let x_win := results.count (-1)
  let draw := results.length - o_win - x_win
  (o_win, x_win, draw)

/-- Source lines 230-231: the metadata record written on the first line of
a model file (`json.dumps`/`json.loads` round-trips these fields exactly,
so the textual layer is modelled as the identity on this record). -/
structure ModelInfo where
  tag : String
  max_episode : ℕ
  epsilon : ℚ
  alpha : ℚ
deriving DecidableEq

/-- A model file: the metadata line plus one `(state, value, visits)`
entry per line, in the order `save_model` writes them. -/
structure SavedModel where
  info : ModelInfo
  entries : List (GameState × ℚ × ℕ)

/-- Model of the `'{:0.3f}'` value formatting of `save_model` (line 236)
composed with the numeric read-back: rounding to the nearest multiple of
1/1000, ties rounded up. -/
def round3 (v : ℚ) : ℚ := (⌊v * 1000 + 1 / 2⌋ : ℚ) / 1000

/-- Source lines 227-236: `save_model` writes the metadata record and one
line per `st_values` entry, the value formatted to three decimal places
and the visit count taken from `st_visits`.  The state's textual round
trip (`str` on write, parse on read) is modelled as the identity on
`GameState`. -/
def save_model (s : Store) (info : ModelInfo) : SavedModel :=
  { info := info,
    entries := s.st_values.map (fun p => (p.1, round3 p.2, s.st_visits p.1)) }

/-- Source lines 243-249: the entry loop of `load_model` — for each line,
assign `st_values[state] = val` and `st_visits[state] = vcnt`, left to
right, into the existing tables. -/
def load_entries (s : Store) : List (GameState × ℚ × ℕ) → Store
  | [] => s
  | (st, v, c) :: rest =>
      load_entries
        { st_values := dset s.st_values st v,
          st_visits := fun k => if k = st then c else s.st_visits k }
        rest

/-- Source lines 239-250: `load_model` reads the metadata record and folds
every entry into the existing tables, returning the metadata. -/
def load_model (s : Store) (m : SavedModel) : ModelInfo × Store :=
  (m.info, load_entries s m.entries)

/-- The value of `state` after `k` repeated `backup(state, nstate, reward)`
calls, starting from `v` with the next state's value fixed at `nv`:
`v, v + a*(nv - v), ...`. -/
def td_iter (a nv v : ℚ) : ℕ → ℚ
  | 0 => v
  | k + 1 => td_iter a nv v k + a * (nv - td_iter a nv v k)

/-! ### Character-level model of `load_model`'s field parsing

`load_model` (source lines 243-247) splits each line on tabs and passes
`elms[0]`, `elms[1]`, `elms[2]` to Python's `eval`.  The definitions below
model that field handling: a field is its character list. -/

abbrev Field := List Char

/-- Accumulate decimal digits; any non-digit character fails. -/
def parseDigitsAux : List Char → ℕ → Option ℕ
  | [], acc => some acc
  | c :: rest, acc =>
      if c.isDigit then parseDigitsAux rest (acc * 10 + (c.toNat - 48)) else none

/-- A nonempty all-digit field as a natural number. -/
def parseNat (cs : List Char) : Option ℕ :=
  match cs with
  | [] => none
  | _ :: _ => parseDigitsAux cs 0

/-- Split a character list at the first occurrence of `sep`, when any. -/
def splitFirst (sep : Char) : List Char → List Char × Option (List Char)
  | [] => ([], none)
  | c :: rest =>
      if c = sep then ([], some rest)
      else
        let r := splitFirst sep rest
        (c :: r.1, r.2)

/-- A decimal numeral without sign: digits, optionally a dot and more
digits.  This is the entire image of the writer's `'{:0.3f}'` and `'{}'`
field formats for nonnegative numbers. -/
def parseNumeralNonneg (cs : List Char) : Option ℚ :=
  match splitFirst '.' cs with
  | (ip, none) => (parseNat ip).map (fun n => (n : ℚ))
  | (ip, some fp) => do
      let i ← parseNat ip
      let f ← parseNat fp
      pure ((i : ℚ) + (f : ℚ) / (10 ^ fp.length))

/-- A decimal numeral with an optional leading minus sign. -/
def parseNumeral (cs : List Char) : Option ℚ :=
  match cs with
  | '-' :: rest => (parseNumeralNonneg rest).map (fun q => -q)
  | _ => parseNumeralNonneg cs

/-- Partial model of Python `eval` on a numeric model-file field (source
lines 246-247): decimal numerals — the writer's entire image — and, to
witness that `eval` accepts general expressions rather than only the
written format, sums `a+b` of two numerals.  Real `eval` accepts far more;
everything outside this fragment is mapped to `none`, which for genuinely
malformed text models the exception `eval` raises. -/
def pyEvalNum (cs : Field) : Option ℚ :=
  match splitFirst '+' cs with
  | (a, none) => parseNumeral a
  | (a, some b) => do
      let x ← parseNumeral a
      let y ← parseNumeral b
      pure (x + y)

/-- Source lines 244-249 at field level: a line's tab-separated fields.
Fewer than three fields is the `IndexError` of `elms[1]`/`elms[2]`
(`none`, aborting the load); fields past the third are ignored, as the
source indexes only `elms[0]` to `elms[2]`.  The `eval` of the state field
`elms[0]` is not modelled — the field is ignored here; the two numeric
fields go through `pyEvalNum`. -/
def load_line (fields : List Field) : Option (ℚ × ℚ) :=
  match fields with
  | _st :: v :: c :: _ => do
      let val ← pyEvalNum v
      let cnt ← pyEvalNum c
      pure (val, cnt)
  | _ => none

/-! ### Concrete fixtures used by the witnesses and counterexamples -/

/-- A deterministic stand-in for `random.choice`: the first element. -/
def pickHead : List ℕ → ℕ := fun l => l.headD 0

/-- The empty board with O to move. -/
def stateInit : GameState := ([0, 0, 0, 0, 0, 0, 0, 0, 0], 'O')

/-- A mid-game state used as a generic key. -/
def stateA : GameState := ([1, 0, 0, 0, 0, 0, 0, 0, 0], 'X')

/-- A second mid-game state used as a generic key. -/
def stateB : GameState := ([1, 2, 0, 0, 0, 0, 0, 0, 0], 'O')

/-- The state one move before an O win: O on cells 0 and 1, X on 3 and 4,
O to move. -/
def statePre : GameState := ([1, 1, 0, 2, 2, 0, 0, 0, 0], 'O')

/-- The terminal state after O completes the top row from `statePre`. -/
def stateTerm : GameState := ([1, 1, 1, 2, 2, 0, 0, 0, 0], 'X')

/-- A board on which X has won the top row. -/
def stateXWin : GameState := ([2, 2, 2, 1, 1, 0, 0, 0, 0], 'O')

/-- The O-side agent with the source's default hyperparameters. -/
def agentO : TDAgent := { mark := 'O', epsilon := EPSILON, alpha := ALPHA, episode_rate := 1 }

/-- An X-side agent with step size 1/2 and no exploration. -/
def agentX : TDAgent := { mark := 'X', epsilon := 0, alpha := 1 / 2, episode_rate := 1 }

/-- A store holding `stateA` at value 0 and `stateB` at value 1. -/
def storeAB : Store :=
  { st_values := [(stateA, 0), (stateB, 1)], st_visits := fun _ => 1 }

/-- A store in which the terminal state `stateTerm` already holds the
value 5, distinct from every terminal reward. -/
def poisonStore : Store :=
  { st_values := [(stateTerm, 5)], st_visits := fun _ => 1 }

/-- A store holding a single state at the value 0.8704, a value reachable
by TD updates with the default step size but not representable with three
decimal places. -/
def cexStore : Store :=
  { st_values := [(stateA, 544 / 625)], st_visits := fun _ => 4 }

/-- A metadata record with the source's default hyperparameters. -/
def infoTD : ModelInfo :=
  { tag := "td", max_episode := 100, epsilon := EPSILON, alpha := ALPHA }

/-- A store holding only `stateA`, for the load-merge witness. -/
def storeW : Store :=
  { st_values := [(stateA, 1 / 2)], st_visits := fun k => if k = stateA then 3 else 0 }

/-- A saved model mentioning only `stateB`, for the load-merge witness. -/
def modelW : SavedModel :=
  { info := infoTD, entries := [(stateB, 1, 2)] }

end TdAgent

namespace TdAgent

/-! ### Dictionary and store lemmas -/

theorem dget_dset_self (d : List (GameState × ℚ)) (k : GameState) (v : ℚ) :
    dget (dset d k v) k = some v := by
  induction d with
  | nil => simp [dget, dset]
  | cons p rest ih =>
      obtain ⟨k', v'⟩ := p
      by_cases h : k' = k
      · simp [dget, dset, h]
      · simpa [dget, dset, h] using ih

theorem dget_dset_ne (d : List (GameState × ℚ)) (k k' : GameState) (v : ℚ)
    (h : k' ≠ k) : dget (dset d k v) k' = dget d k' := by
  induction d with
  | nil => simp [dget, dset, Ne.symm h]
  | cons p rest ih =>
      obtain ⟨k0, v0⟩ := p
      by_cases h0 : k0 = k
      · subst h0
        simp [dget, dset, Ne.symm h]
      · simp [dget, dset, h0, ih]

theorem dget_dset_isSome (d : List (GameState × ℚ)) (k k' : GameState) (v : ℚ)
    (h : (dget d k').isSome) : (dget (dset d k v) k').isSome := by
  by_cases hk : k' = k
  · subst hk; simp [dget_dset_self]
  · rw [dget_dset_ne d k k' v hk]; exact h

theorem set_state_value_values (s : Store) (state : GameState) (value : ℚ) :
    (set_state_value s state value).st_values = dset s.st_values state value := rfl

theorem set_state_value_visits_self (s : Store) (state : GameState) (value : ℚ) :
    (set_state_value s state value).st_visits state = s.st_visits state + 1 := by
  simp [set_state_value]

theorem set_state_value_visits_ne (s : Store) (state k : GameState) (value : ℚ)
    (h : k ≠ state) : (set_state_value s state value).st_visits k = s.st_visits k := by
  simp [set_state_value, h]

theorem ask_value_of_present (m : Mark) (s : Store) (state : GameState) (v : ℚ)
    (h : dget s.st_values state = some v) : ask_value m s state = (v, s) := by
  unfold ask_value
  rw [h]

theorem ask_value_of_absent (m : Mark) (s : Store) (state : GameState)
    (h : dget s.st_values state = none) :
    ask_value m s state =
      (if check_game_status state.1 > 0
          then (if m = 'O' then O_REWARD else X_REWARD)
          else DEFAULT_VALUE,
        set_state_value s state
          (if check_game_status state.1 > 0
            then (if m = 'O' then O_REWARD else X_REWARD)
            else DEFAULT_VALUE)) := by
  unfold ask_value
  rw [h]

theorem backup_eq (agent : TDAgent) (s : Store) (state nstate : GameState)
    (reward : ℚ) :
    backup agent s state nstate reward
      = set_state_value (ask_value agent.mark (ask_value agent.mark s state).2 nstate).2
          state
          ((ask_value agent.mark s state).1
            + agent.alpha * ((ask_value agent.mark (ask_value agent.mark s state).2 nstate).1
                - (ask_value agent.mark s state).1)) := rfl

/-! ### Claim theorems: TD update, lazy initialization, tally, contract -/

/-- Claim C2: one `backup(state, nextState, reward)` call stores for
`state` the value `oldValue + alpha * (value(nextState) - oldValue)`,
where `oldValue` is `state`'s value before the call as produced by the
lazily-initializing get (`ask_value`), the write going through the store's
set operation (`set_state_value`), which increments `state`'s visit
counter by exactly one over the tables as they stand after the two get
calls. -/
theorem backup_td_update (agent : TDAgent) (s : Store) (state nstate : GameState)
    (reward : ℚ) :
    dget (backup agent s state nstate reward).st_values state
        = some ((ask_value agent.mark s state).1
            + agent.alpha * ((ask_value agent.mark (ask_value agent.mark s state).2 nstate).1
                - (ask_value agent.mark s state).1))
      ∧ (backup agent s state nstate reward).st_visits state
        = (ask_value agent.mark (ask_value agent.mark s state).2 nstate).2.st_visits state + 1 := by
  rw [backup_eq]
  exact ⟨by rw [set_state_value_values, dget_dset_self],
    set_state_value_visits_self _ _ _⟩

/-- Claim C4 counterexample: on a board where X has won, a never-seen
state asked for by an O-marked agent is initialized to `O_REWARD`, not to
`DEFAULT_VALUE` — the code tests for a win by either mark
(`gstatus > 0`), not only the agent's own mark, and then installs the
agent's own reward. -/
theorem ask_value_any_win_cex :
    check_game_status stateXWin.1 = 2
      ∧ dget emptyStore.st_values stateXWin = none
      ∧ emptyStore.st_visits stateXWin = 0
      ∧ (ask_value 'O' emptyStore stateXWin).1 = O_REWARD
      ∧ O_REWARD ≠ DEFAULT_VALUE := by
  refine ⟨by decide, by decide, by decide, by decide, by decide⟩

/-- Claim C4 (amended): a get on a never-seen state returns
`DEFAULT_VALUE` and leaves its visit count at exactly 1 — unless the state
is terminal with a detectable win for either mark, in which case it
initializes to the asking agent's own mark's terminal reward value instead
of the default. -/
theorem ask_value_lazy_init (m : Mark) (s : Store) (state : GameState)
    (h : dget s.st_values state = none) (h0 : s.st_visits state = 0) :
    (ask_value m s state).1
        = (if check_game_status state.1 > 0
            then (if m = 'O' then O_REWARD else X_REWARD)
            else DEFAULT_VALUE)
      ∧ (ask_value m s state).2.st_visits state = 1
      ∧ dget (ask_value m s state).2.st_values state = some ((ask_value m s state).1) := by
  rw [ask_value_of_absent m s state h]
  refine ⟨rfl, ?_, ?_⟩
  · rw [set_state_value_visits_self, h0]
  · rw [set_state_value_values, dget_dset_self]

/-- Witness for `ask_value_lazy_init`: the empty store and a non-winning
mid-game state — the get yields `DEFAULT_VALUE` and a visit count of 1. -/
theorem ask_value_lazy_init_witness :
    dget emptyStore.st_values stateA = none
      ∧ emptyStore.st_visits stateA = 0
      ∧ (ask_value 'X' emptyStore stateA).1 = DEFAULT_VALUE
      ∧ (ask_value 'X' emptyStore stateA).2.st_visits stateA = 1 := by
  have h := ask_value_lazy_init 'X' emptyStore stateA (by decide) (by decide)
  exact ⟨by decide, by decide, by rw [h.1]; decide, h.2.1⟩

theorem count_one_negone_le (l : List ℚ) :
    l.count 1 + l.count (-1) ≤ l.length := by
  induction l with
  | nil => simp
  | cons r t ih =>
      simp only [List.count_cons, beq_iff_eq, List.length_cons]
      split <;> split <;> try omega
      rename_i h1 h2
      exfalso
      subst h1
      norm_num at h2

/-- Claim C9: the benchmark tally counts rewards equal to +1 as baseline
(O) wins, rewards equal to -1 as trained (X) wins, and the remainder as
draws, so for a run of N episodes producing one terminal reward each the
three counts sum exactly to N. -/
theorem bench_tally_sums (results : List ℚ) (N : ℕ)
    (h : results.length = N) :
    (bench_tally results).1 + (bench_tally results).2.1 + (bench_tally results).2.2 = N := by
  have hle := count_one_negone_le results
  simp only [bench_tally]
  omega

/-- Witness for `bench_tally_sums`: four episodes ending in a baseline
win, a trained-agent win and two draws tally to 4. -/
theorem bench_tally_sums_witness :
    ([1, -1, 0, 0] : List ℚ).length = 4
      ∧ (bench_tally [1, -1, 0, 0]).1 + (bench_tally [1, -1, 0, 0]).2.1
          + (bench_tally [1, -1, 0, 0]).2.2 = 4 :=
  ⟨rfl, bench_tally_sums [1, -1, 0, 0] 4 rfl⟩

/-- Claim C8: calling `greedy_action` with an empty available-action list
signals the contract violation (the `assert` fails: no action is
returned), while for every non-empty list an action is returned, so the
failure branch is unreachable under the non-empty precondition. -/
theorem greedy_action_empty_contract (agent : TDAgent) (s : Store)
    (state : GameState) (rchoice : List ℕ → ℕ) :
    greedy_action agent s state [] rchoice = none
      ∧ ∀ acts : List ℕ, acts ≠ [] →
          ∃ a s', greedy_action agent s state acts rchoice = some (a, s') := by
  refine ⟨rfl, ?_⟩
  intro acts hacts
  match acts, hacts with
  | a :: rest, _ => exact ⟨_, _, rfl⟩

/-- Witness for `greedy_action_empty_contract`: the empty list is refused
and the singleton list `[0]` from the initial board yields an action. -/
theorem greedy_action_empty_contract_witness :
    greedy_action agentO emptyStore stateInit [] pickHead = none
      ∧ (([0] : List ℕ) ≠ [])
      ∧ ∃ a s', greedy_action agentO emptyStore stateInit [0] pickHead = some (a, s') := by
  have h := greedy_action_empty_contract agentO emptyStore stateInit pickHead
  exact ⟨h.1, by simp, h.2 [0] (by simp)⟩

/-- Claim C1: evaluation of the final turn of an episode (`_learn` lines
210-216, `done` branch).  On the episode where O completes the top row
from `statePre` with reward 1, the forced `set_state_value(state, reward)`
writes the reward into the pre-terminal `state` (its value becomes 1 after
three writes), while the terminal `nstate` only ever receives its
lazy-initialization value inside `backup` (one write).  Starting instead
from a store where the terminal state already holds 5, the episode ends
with the terminal state still at 5, not at the reward 1: the terminal
state is never force-set, contradicting the code's own comment
`# set terminal state value`. -/
theorem terminal_anchor_bug :
    dget (learn_step_done agentO emptyStore statePre stateTerm 1).st_values statePre = some 1
      ∧ (learn_step_done agentO emptyStore statePre stateTerm 1).st_visits statePre = 3
      ∧ dget (learn_step_done agentO emptyStore statePre stateTerm 1).st_values stateTerm = some 1
      ∧ (learn_step_done agentO emptyStore statePre stateTerm 1).st_visits stateTerm = 1
      ∧ dget (learn_step_done agentO poisonStore statePre stateTerm 1).st_values statePre = some 1
      ∧ dget (learn_step_done agentO poisonStore statePre stateTerm 1).st_values stateTerm
          = some 5
      ∧ ((5 : ℚ)) ≠ 1 := by
  refine ⟨by decide, by decide, by decide, by decide, by decide, by decide, by decide⟩

/-! ### Persistence lemmas -/

theorem mem_of_dget (d : List (GameState × ℚ)) (st : GameState) (v : ℚ)
    (h : dget d st = some v) : (st, v) ∈ d := by
  induction d with
  | nil => simp [dget] at h
  | cons p rest ih =>
      obtain ⟨k', v'⟩ := p
      by_cases hk : k' = st
      · subst hk
        rw [show dget ((k', v') :: rest) k' = if k' = k' then some v' else dget rest k' from rfl,
          if_pos rfl] at h
        have hv := Option.some.inj h
        subst hv
        exact List.mem_cons_self _ _
      · rw [show dget ((k', v') :: rest) st = if k' = st then some v' else dget rest st from rfl,
          if_neg hk] at h
        exact List.mem_cons_of_mem _ (ih h)

theorem load_entries_frame (es : List (GameState × ℚ × ℕ)) :
    ∀ (s : Store) (st : GameState), st ∉ es.map (fun e => e.1) →
      dget (load_entries s es).st_values st = dget s.st_values st
        ∧ (load_entries s es).st_visits st = s.st_visits st := by
  induction es with
  | nil => intro s st _; exact ⟨rfl, rfl⟩
  | cons e rest ih =>
      intro s st hst
      obtain ⟨k, v, c⟩ := e
      simp only [List.map_cons, List.mem_cons, not_or] at hst
      obtain ⟨hne, hrest⟩ := hst
      have h := ih
        { st_values := dset s.st_values k v,
          st_visits := fun a => if a = k then c else s.st_visits a } st hrest
      refine ⟨?_, ?_⟩
      · rw [show load_entries s ((k, v, c) :: rest)
            = load_entries
                { st_values := dset s.st_values k v,
                  st_visits := fun a => if a = k then c else s.st_visits a } rest from rfl,
          h.1]
        exact dget_dset_ne _ _ _ _ hne
      · rw [show load_entries s ((k, v, c) :: rest)
            = load_entries
                { st_values := dset s.st_values k v,
                  st_visits := fun a => if a = k then c else s.st_visits a } rest from rfl,
          h.2]
        simp [hne]

theorem load_entries_isSome (es : List (GameState × ℚ × ℕ)) :
    ∀ (s : Store) (st : GameState), (dget s.st_values st).isSome →
      (dget (load_entries s es).st_values st).isSome := by
  induction es with
  | nil => intro s st h; exact h
  | cons e rest ih =>
      intro s st h
      obtain ⟨k, v, c⟩ := e
      exact ih _ st (dget_dset_isSome _ _ _ _ h)

theorem load_entries_mem (es : List (GameState × ℚ × ℕ)) :
    ∀ (s : Store) (st : GameState) (v : ℚ) (c : ℕ),
      (es.map (fun e => e.1)).Nodup → (st, v, c) ∈ es →
        dget (load_entries s es).st_values st = some v
          ∧ (load_entries s es).st_visits st = c := by
  induction es with
  | nil => intro s st v c _ hmem; simp at hmem
  | cons e rest ih =>
      intro s st v c hnd hmem
      obtain ⟨k, v', c'⟩ := e
      simp only [List.map_cons, List.nodup_cons] at hnd
      rcases List.mem_cons.mp hmem with heq | hmem'
      · have hst : st = k := congrArg (fun p => p.1) heq
        have hv : v = v' := congrArg (fun p => p.2.1) heq
        have hc : c = c' := congrArg (fun p => p.2.2) heq
        subst hst; subst hv; subst hc
        have hfr := load_entries_frame rest
          { st_values := dset s.st_values st v,
            st_visits := fun a => if a = st then c else s.st_visits a } st hnd.1
        refine ⟨?_, ?_⟩
        · rw [show load_entries s ((st, v, c) :: rest)
              = load_entries
                  { st_values := dset s.st_values st v,
                    st_visits := fun a => if a = st then c else s.st_visits a } rest from rfl,
            hfr.1]
          exact dget_dset_self _ _ _
        · rw [show load_entries s ((st, v, c) :: rest)
              = load_entries
                  { st_values := dset s.st_values st v,
                    st_visits := fun a => if a = st then c else s.st_visits a } rest from rfl,
            hfr.2]
          simp
      · exact ih _ st v c hnd.2 hmem'

theorem save_model_keys (s : Store) (info : ModelInfo) :
    (save_model s info).entries.map (fun e => e.1) = s.st_values.map (fun p => p.1) := by
  simp [save_model, List.map_map]

/-- Claim C3 counterexample: the state-value 0.8704 (reachable by TD
updates with the default step size) is written with three decimal places,
so saving and re-loading yields 0.87, not an identical mapping. -/
theorem save_load_roundtrip_cex :
    dget cexStore.st_values stateA = some (544 / 625)
      ∧ dget (load_model emptyStore (save_model cexStore infoTD)).2.st_values stateA
          = some (87 / 100)
      ∧ ((87 : ℚ) / 100) ≠ 544 / 625 := by
  have h1 : dget (load_model emptyStore (save_model cexStore infoTD)).2.st_values stateA
      = some (round3 (544 / 625)) := rfl
  have h2 : round3 (544 / 625) = 87 / 100 := by norm_num [round3]
  refine ⟨rfl, ?_, by norm_num⟩
  rw [h1, h2]

/-- Claim C3 (amended): `save_model` followed by `load_model` into fresh
tables reproduces the metadata identically and, for every state present
before saving, reproduces its visit count identically and its value up to
formatting with three decimal places (`round3`); values already at
three-decimal precision are reproduced exactly. -/
theorem save_load_roundtrip_rounded (s : Store) (info : ModelInfo)
    (hnd : (s.st_values.map (fun p => p.1)).Nodup) :
    (load_model emptyStore (save_model s info)).1 = info
      ∧ ∀ st v, dget s.st_values st = some v →
          dget (load_model emptyStore (save_model s info)).2.st_values st
              = some (round3 v)
            ∧ (load_model emptyStore (save_model s info)).2.st_visits st
              = s.st_visits st := by
  refine ⟨rfl, ?_⟩
  intro st v hv
  have hmem : (st, v) ∈ s.st_values := mem_of_dget _ _ _ hv
  have hmem' : (st, round3 v, s.st_visits st) ∈ (save_model s info).entries :=
    List.mem_map_of_mem (fun p => (p.1, round3 p.2, s.st_visits p.1)) hmem
  have hnd' : ((save_model s info).entries.map (fun e => e.1)).Nodup := by
    rw [save_model_keys]; exact hnd
  exact load_entries_mem (save_model s info).entries emptyStore st (round3 v)
    (s.st_visits st) hnd' hmem'

/-- Witness for `save_load_roundtrip_rounded`: the one-state store holding
0.8704 with 4 visits round-trips to the rounded value 0.87 with the same
visit count and identical metadata. -/
theorem save_load_roundtrip_rounded_witness :
    (cexStore.st_values.map (fun p => p.1)).Nodup
      ∧ dget cexStore.st_values stateA = some (544 / 625)
      ∧ (load_model emptyStore (save_model cexStore infoTD)).1 = infoTD
      ∧ dget (load_model emptyStore (save_model cexStore infoTD)).2.st_values stateA
          = some (round3 (544 / 625))
      ∧ (load_model emptyStore (save_model cexStore infoTD)).2.st_visits stateA
          = cexStore.st_visits stateA := by
  have h := save_load_roundtrip_rounded cexStore infoTD (by decide)
  have h2 := h.2 stateA (544 / 625) rfl
  exact ⟨by decide, rfl, h.1, h2.1, h2.2⟩

/-- Claim C10: `load_model` merges into the existing tables rather than
replacing them — a state absent from the loaded file keeps its value and
visit count, and no state present before the load loses its entry. -/
theorem load_model_merge_frame (s : Store) (m : SavedModel) (st : GameState) :
    (st ∉ m.entries.map (fun e => e.1) →
        dget (load_model s m).2.st_values st = dget s.st_values st
          ∧ (load_model s m).2.st_visits st = s.st_visits st)
      ∧ ∀ v, dget s.st_values st = some v →
          ∃ v', dget (load_model s m).2.st_values st = some v' := by
  constructor
  · intro h
    exact load_entries_frame m.entries s st h
  · intro v hv
    have hs : (dget (load_entries s m.entries).st_values st).isSome :=
      load_entries_isSome m.entries s st (by rw [hv]; rfl)
    exact Option.isSome_iff_exists.mp hs

/-- Witness for `load_model_merge_frame`: loading a file that mentions
only `stateB` into a store holding `stateA` leaves `stateA`'s value 1/2
and visit count 3 unchanged and keeps the entry present. -/
theorem load_model_merge_frame_witness :
    (stateA ∉ modelW.entries.map (fun e => e.1))
      ∧ dget (load_model storeW modelW).2.st_values stateA = dget storeW.st_values stateA
      ∧ (load_model storeW modelW).2.st_visits stateA = storeW.st_visits stateA
      ∧ ∃ v', dget (load_model storeW modelW).2.st_values stateA = some v' := by
  have h := load_model_merge_frame storeW modelW stateA
  have hni : stateA ∉ modelW.entries.map (fun e => e.1) := by decide
  exact ⟨hni, (h.1 hni).1, (h.1 hni).2, h.2 (1 / 2) rfl⟩

/-! ### Backup convergence -/

/-- Claim C6: with `state` and `nstate` distinct and both present, the
value of `state` after `k` repeated `backup(state, nstate, reward)` calls
is `td_iter alpha nv v k`; one call strictly increases the value when
`value(nstate) > value(state)` and strictly decreases it in the opposite
case (for positive step size), and for `alpha` in [0, 1] the repeated
values move monotonically toward `value(nstate)` without ever passing
it. -/
theorem backup_convergence (agent : TDAgent) (s : Store)
    (state nstate : GameState) (reward v nv : ℚ)
    (hv : dget s.st_values state = some v)
    (hnv : dget s.st_values nstate = some nv)
    (hne : state ≠ nstate)
    (h0 : 0 ≤ agent.alpha) (h1 : agent.alpha ≤ 1) :
    td_iter agent.alpha nv v 0 = v
      ∧ (∀ k, dget ((fun t => backup agent t state nstate reward)^[k] s).st_values state
          = some (td_iter agent.alpha nv v k))
      ∧ (∀ k, td_iter agent.alpha nv v (k + 1)
          = td_iter agent.alpha nv v k + agent.alpha * (nv - td_iter agent.alpha nv v k))
      ∧ (0 < agent.alpha → v < nv → v < td_iter agent.alpha nv v 1)
      ∧ (0 < agent.alpha → nv < v → td_iter agent.alpha nv v 1 < v)
      ∧ (v ≤ nv → ∀ k, td_iter agent.alpha nv v k ≤ td_iter agent.alpha nv v (k + 1)
          ∧ td_iter agent.alpha nv v (k + 1) ≤ nv)
      ∧ (nv ≤ v → ∀ k, td_iter agent.alpha nv v (k + 1) ≤ td_iter agent.alpha nv v k
          ∧ nv ≤ td_iter agent.alpha nv v (k + 1)) := by
  have key : ∀ k,
      dget ((fun t => backup agent t state nstate reward)^[k] s).st_values state
          = some (td_iter agent.alpha nv v k)
        ∧ dget ((fun t => backup agent t state nstate reward)^[k] s).st_values nstate
          = some nv := by
    intro k
    induction k with
    | zero => simpa [td_iter] using ⟨hv, hnv⟩
    | succ k ih =>
        rw [Function.iterate_succ_apply']
        have e1 : ask_value agent.mark
              ((fun t => backup agent t state nstate reward)^[k] s) state
            = (td_iter agent.alpha nv v k,
                (fun t => backup agent t state nstate reward)^[k] s) :=
          ask_value_of_present _ _ _ _ ih.1
        have e2 : ask_value agent.mark
              ((fun t => backup agent t state nstate reward)^[k] s) nstate
            = (nv, (fun t => backup agent t state nstate reward)^[k] s) :=
          ask_value_of_present _ _ _ _ ih.2
        have hb := backup_eq agent ((fun t => backup agent t state nstate reward)^[k] s)
          state nstate reward
        rw [e1] at hb
        dsimp only at hb
        rw [e2] at hb
        dsimp only at hb
        constructor
        · show dget (backup agent ((fun t => backup agent t state nstate reward)^[k] s)
              state nstate reward).st_values state = _
          rw [hb, set_state_value_values, dget_dset_self]
          rfl
        · show dget (backup agent ((fun t => backup agent t state nstate reward)^[k] s)
              state nstate reward).st_values nstate = _
          rw [hb, set_state_value_values, dget_dset_ne _ _ _ _ (Ne.symm hne)]
          exact ih.2
  have hrec : ∀ k, td_iter agent.alpha nv v (k + 1)
      = td_iter agent.alpha nv v k + agent.alpha * (nv - td_iter agent.alpha nv v k) :=
    fun _ => rfl
  refine ⟨rfl, fun k => (key k).1, hrec, ?_, ?_, ?_, ?_⟩
  · intro ha hlt
    have hp : 0 < agent.alpha * (nv - v) := mul_pos ha (sub_pos.mpr hlt)
    have h1' : td_iter agent.alpha nv v 1 = v + agent.alpha * (nv - v) := rfl
    rw [h1']
    linarith
  · intro ha hlt
    have hp : agent.alpha * (nv - v) < 0 :=
      mul_neg_of_pos_of_neg ha (sub_neg.mpr hlt)
    have h1' : td_iter agent.alpha nv v 1 = v + agent.alpha * (nv - v) := rfl
    rw [h1']
    linarith
  · intro hle
    have hub : ∀ k, td_iter agent.alpha nv v k ≤ nv := by
      intro k
      induction k with
      | zero => simpa [td_iter] using hle
      | succ k ih =>
          rw [hrec k]
          have hg : 0 ≤ (1 - agent.alpha) * (nv - td_iter agent.alpha nv v k) :=
            mul_nonneg (by linarith) (by linarith)
          nlinarith
    intro k
    refine ⟨?_, hub (k + 1)⟩
    rw [hrec k]
    have hg : 0 ≤ agent.alpha * (nv - td_iter agent.alpha nv v k) :=
      mul_nonneg h0 (by linarith [hub k])
    linarith
  · intro hle
    have hlb : ∀ k, nv ≤ td_iter agent.alpha nv v k := by
      intro k
      induction k with
      | zero => simpa [td_iter] using hle
      | succ k ih =>
          rw [hrec k]
          have hg : (1 - agent.alpha) * (nv - td_iter agent.alpha nv v k) ≤ 0 :=
            mul_nonpos_of_nonneg_of_nonpos (by linarith) (by linarith)
          nlinarith
    intro k
    refine ⟨?_, hlb (k + 1)⟩
    rw [hrec k]
    have hg : agent.alpha * (nv - td_iter agent.alpha nv v k) ≤ 0 :=
      mul_nonpos_of_nonneg_of_nonpos h0 (by linarith [hlb k])
    linarith

/-- Witness for `backup_convergence`: the store holding `stateA` at 0 and
`stateB` at 1, with the X agent's step size 1/2. -/
theorem backup_convergence_witness :
    dget storeAB.st_values stateA = some 0
      ∧ dget storeAB.st_values stateB = some 1
      ∧ stateA ≠ stateB
      ∧ (0 ≤ agentX.alpha ∧ agentX.alpha ≤ 1)
      ∧ (td_iter agentX.alpha 1 0 0 = 0
          ∧ (∀ k, dget ((fun t => backup agentX t stateA stateB 0)^[k] storeAB).st_values stateA
              = some (td_iter agentX.alpha 1 0 k))
          ∧ (∀ k, td_iter agentX.alpha 1 0 (k + 1)
              = td_iter agentX.alpha 1 0 k + agentX.alpha * (1 - td_iter agentX.alpha 1 0 k))
          ∧ (0 < agentX.alpha → (0 : ℚ) < 1 → 0 < td_iter agentX.alpha 1 0 1)
          ∧ (0 < agentX.alpha → (1 : ℚ) < 0 → td_iter agentX.alpha 1 0 1 < 0)
          ∧ ((0 : ℚ) ≤ 1 → ∀ k, td_iter agentX.alpha 1 0 k ≤ td_iter agentX.alpha 1 0 (k + 1)
              ∧ td_iter agentX.alpha 1 0 (k + 1) ≤ 1)
          ∧ ((1 : ℚ) ≤ 0 → ∀ k, td_iter agentX.alpha 1 0 (k + 1) ≤ td_iter agentX.alpha 1 0 k
              ∧ 1 ≤ td_iter agentX.alpha 1 0 (k + 1))) := by
  have hb : (0 : ℚ) ≤ agentX.alpha ∧ agentX.alpha ≤ 1 := by
    constructor <;> norm_num [agentX]
  exact ⟨rfl, rfl, by decide, hb,
    backup_convergence agentX storeAB stateA stateB 0 0 1 rfl rfl (by decide) hb.1 hb.2⟩

/-! ### Greedy selection lemmas -/

theorem self_le_foldl_max (l : List ℚ) : ∀ a : ℚ, a ≤ l.foldl max a := by
  induction l with
  | nil => intro a; simp
  | cons c t ih =>
      intro a
      simp only [List.foldl_cons]
      exact le_trans (le_max_left a c) (ih (max a c))

theorem mem_le_foldl_max (l : List ℚ) : ∀ a b : ℚ, b ∈ l → b ≤ l.foldl max a := by
  induction l with
  | nil => intro a b h; simp at h
  | cons c t ih =>
      intro a b h
      simp only [List.foldl_cons]
      rcases List.mem_cons.mp h with rfl | h'
      · exact le_trans (le_max_right a b) (self_le_foldl_max t (max a b))
      · exact ih (max a c) b h'

theorem foldl_max_mem (l : List ℚ) : ∀ a : ℚ, l.foldl max a ∈ a :: l := by
  induction l with
  | nil => intro a; simp
  | cons c t ih =>
      intro a
      simp only [List.foldl_cons]
      rcases List.mem_cons.mp (ih (max a c)) with h | h
      · rcases max_choice a c with h' | h'
        · rw [h, h']
          exact List.mem_cons_self _ _
        · rw [h, h']
          exact List.mem_cons_of_mem _ (List.mem_cons_self _ _)
      · exact List.mem_cons_of_mem _ (List.mem_cons_of_mem _ h)

theorem foldl_min_le_self (l : List ℚ) : ∀ a : ℚ, l.foldl min a ≤ a := by
  induction l with
  | nil => intro a; simp
  | cons c t ih =>
      intro a
      simp only [List.foldl_cons]
      exact le_trans (ih (min a c)) (min_le_left a c)

theorem foldl_min_le_mem (l : List ℚ) : ∀ a b : ℚ, b ∈ l → l.foldl min a ≤ b := by
  induction l with
  | nil => intro a b h; simp at h
  | cons c t ih =>
      intro a b h
      simp only [List.foldl_cons]
      rcases List.mem_cons.mp h with rfl | h'
      · exact le_trans (foldl_min_le_self t (min a b)) (min_le_right a b)
      · exact ih (min a c) b h'

theorem foldl_min_mem (l : List ℚ) : ∀ a : ℚ, l.foldl min a ∈ a :: l := by
  induction l with
  | nil => intro a; simp
  | cons c t ih =>
      intro a
      simp only [List.foldl_cons]
      rcases List.mem_cons.mp (ih (min a c)) with h | h
      · rcases min_choice a c with h' | h'
        · rw [h, h']
          exact List.mem_cons_self _ _
        · rw [h, h']
          exact List.mem_cons_of_mem _ (List.mem_cons_self _ _)
      · exact List.mem_cons_of_mem _ (List.mem_cons_of_mem _ h)

theorem pymax_mem (l : List ℚ) (h : l ≠ []) : pymax l ∈ l := by
  match l, h with
  | x :: xs, _ =>
      have h1 := foldl_max_mem (x :: xs) x
      rcases List.mem_cons.mp h1 with h2 | h2
      · rw [show pymax (x :: xs) = (x :: xs).foldl max x from rfl, h2]
        exact List.mem_cons_self _ _
      · rw [show pymax (x :: xs) = (x :: xs).foldl max x from rfl]
        exact h2

theorem pymax_ge (l : List ℚ) (b : ℚ) (hb : b ∈ l) : b ≤ pymax l := by
  exact mem_le_foldl_max l _ b hb

theorem pymin_mem (l : List ℚ) (h : l ≠ []) : pymin l ∈ l := by
  match l, h with
  | x :: xs, _ =>
      have h1 := foldl_min_mem (x :: xs) x
      rcases List.mem_cons.mp h1 with h2 | h2
      · rw [show pymin (x :: xs) = (x :: xs).foldl min x from rfl, h2]
        exact List.mem_cons_self _ _
      · rw [show pymin (x :: xs) = (x :: xs).foldl min x from rfl]
        exact h2

theorem pymin_le (l : List ℚ) (b : ℚ) (hb : b ∈ l) : pymin l ≤ b := by
  exact foldl_min_le_mem l _ b hb

theorem ask_values_length (m : Mark) (state : GameState) :
    ∀ (acts : List ℕ) (s : Store),
      (ask_values m s state acts).1.length = acts.length := by
  intro acts
  induction acts with
  | nil => intro s; rfl
  | cons a rest ih => intro s; simp [ask_values, ih]

theorem mem_best_val_indices (values : List ℚ) (fn : List ℚ → ℚ) (i : ℕ) :
    i ∈ best_val_indices values fn
      ↔ i < values.length ∧ values.getD i 0 = fn values := by
  simp [best_val_indices, List.mem_filter, List.mem_range]

/-- Claim C5: `greedy_action` returns an action whose computed next-state
value is the maximum of the candidate values when the agent's mark is 'O'
and the minimum otherwise; and when exactly one index attains that
optimum, the returned action is the same for any two valid tie-break
choice functions — i.e. independent of the random seed. -/
theorem greedy_action_optimal (agent : TDAgent) (s : Store) (state : GameState)
    (acts : List ℕ) (pick pick' : List ℕ → ℕ)
    (hne : acts ≠ [])
    (hp : ∀ l : List ℕ, l ≠ [] → pick l ∈ l)
    (hp' : ∀ l : List ℕ, l ≠ [] → pick' l ∈ l) :
    (∃ i, i < acts.length
        ∧ greedy_action agent s state acts pick
            = some (acts.getD i 0, (ask_values agent.mark s state acts).2)
        ∧ (ask_values agent.mark s state acts).1.getD i 0
            = (if agent.mark = 'O'
                then pymax (ask_values agent.mark s state acts).1
                else pymin (ask_values agent.mark s state acts).1))
      ∧ (agent.mark = 'O' → ∀ j, j < acts.length →
          (ask_values agent.mark s state acts).1.getD j 0
            ≤ pymax (ask_values agent.mark s state acts).1)
      ∧ (agent.mark ≠ 'O' → ∀ j, j < acts.length →
          pymin (ask_values agent.mark s state acts).1
            ≤ (ask_values agent.mark s state acts).1.getD j 0)
      ∧ ((∃! i, i < acts.length
            ∧ (ask_values agent.mark s state acts).1.getD i 0
              = (if agent.mark = 'O'
                  then pymax (ask_values agent.mark s state acts).1
                  else pymin (ask_values agent.mark s state acts).1)) →
          greedy_action agent s state acts pick
            = greedy_action agent s state acts pick') := by
  obtain ⟨a, rest, rfl⟩ := List.exists_cons_of_ne_nil hne
  have hlen := ask_values_length agent.mark state (a :: rest) s
  have hvne : (ask_values agent.mark s state (a :: rest)).1 ≠ [] := by
    intro h
    rw [h] at hlen
    simp at hlen
  have hsel : (if agent.mark = 'O'
      then pymax (ask_values agent.mark s state (a :: rest)).1
      else pymin (ask_values agent.mark s state (a :: rest)).1)
      ∈ (ask_values agent.mark s state (a :: rest)).1 := by
    by_cases hm : agent.mark = 'O'
    · simpa [hm] using pymax_mem _ hvne
    · simpa [hm] using pymin_mem _ hvne
  have hchar : ∀ i, i ∈ (if agent.mark = 'O'
        then best_val_indices (ask_values agent.mark s state (a :: rest)).1 pymax
        else best_val_indices (ask_values agent.mark s state (a :: rest)).1 pymin)
      ↔ (i < (ask_values agent.mark s state (a :: rest)).1.length
          ∧ (ask_values agent.mark s state (a :: rest)).1.getD i 0
            = (if agent.mark = 'O'
                then pymax (ask_values agent.mark s state (a :: rest)).1
                else pymin (ask_values agent.mark s state (a :: rest)).1)) := by
    intro i
    by_cases hm : agent.mark = 'O' <;> simp [hm, mem_best_val_indices]
  have hidxne : (if agent.mark = 'O'
      then best_val_indices (ask_values agent.mark s state (a :: rest)).1 pymax
      else best_val_indices (ask_values agent.mark s state (a :: rest)).1 pymin) ≠ [] := by
    obtain ⟨i0, hi0, hgi⟩ := List.mem_iff_getElem.mp hsel
    refine List.ne_nil_of_mem ((hchar i0).mpr ⟨hi0, ?_⟩)
    rw [List.getD_eq_getElem _ 0 hi0, hgi]
  have hpick := (hchar _).mp (hp _ hidxne)
  have hpick' := (hchar _).mp (hp' _ hidxne)
  have hstep : greedy_action agent s state (a :: rest) pick
      = some ((a :: rest).getD
            (pick (if agent.mark = 'O'
              then best_val_indices (ask_values agent.mark s state (a :: rest)).1 pymax
              else best_val_indices (ask_values agent.mark s state (a :: rest)).1 pymin)) 0,
          (ask_values agent.mark s state (a :: rest)).2) := rfl
  have hstep' : greedy_action agent s state (a :: rest) pick'
      = some ((a :: rest).getD
            (pick' (if agent.mark = 'O'
              then best_val_indices (ask_values agent.mark s state (a :: rest)).1 pymax
              else best_val_indices (ask_values agent.mark s state (a :: rest)).1 pymin)) 0,
          (ask_values agent.mark s state (a :: rest)).2) := rfl
  refine ⟨⟨_, ?_, hstep, hpick.2⟩, ?_, ?_, ?_⟩
  · rw [← hlen]
    exact hpick.1
  · intro _ j hj
    have hj' : j < (ask_values agent.mark s state (a :: rest)).1.length := by
      rw [hlen]
      exact hj
    refine pymax_ge _ _ ?_
    rw [List.getD_eq_getElem _ 0 hj']
    exact List.getElem_mem hj'
  · intro _ j hj
    have hj' : j < (ask_values agent.mark s state (a :: rest)).1.length := by
      rw [hlen]
      exact hj
    refine pymin_le _ _ ?_
    rw [List.getD_eq_getElem _ 0 hj']
    exact List.getElem_mem hj'
  · rintro ⟨i, _, huniq⟩
    have hpe : pick (if agent.mark = 'O'
        then best_val_indices (ask_values agent.mark s state (a :: rest)).1 pymax
        else best_val_indices (ask_values agent.mark s state (a :: rest)).1 pymin) = i :=
      huniq _ ⟨by rw [← hlen]; exact hpick.1, hpick.2⟩
    have hpe' : pick' (if agent.mark = 'O'
        then best_val_indices (ask_values agent.mark s state (a :: rest)).1 pymax
        else best_val_indices (ask_values agent.mark s state (a :: rest)).1 pymin) = i :=
      huniq _ ⟨by rw [← hlen]; exact hpick'.1, hpick'.2⟩
    rw [hstep, hstep', hpe, hpe']

/-- Witness for `greedy_action_optimal`: the O agent on the near-win board
`statePre` choosing among the remaining cells, with the head-picking
tie-breaker in both runs. -/
theorem greedy_action_optimal_witness :
    (([2, 5, 6, 7, 8] : List ℕ) ≠ [])
      ∧ (∀ l : List ℕ, l ≠ [] → pickHead l ∈ l)
      ∧ ((∃ i, i < ([2, 5, 6, 7, 8] : List ℕ).length
          ∧ greedy_action agentO emptyStore statePre [2, 5, 6, 7, 8] pickHead
              = some (([2, 5, 6, 7, 8] : List ℕ).getD i 0,
                  (ask_values agentO.mark emptyStore statePre [2, 5, 6, 7, 8]).2)
          ∧ (ask_values agentO.mark emptyStore statePre [2, 5, 6, 7, 8]).1.getD i 0
              = (if agentO.mark = 'O'
                  then pymax (ask_values agentO.mark emptyStore statePre [2, 5, 6, 7, 8]).1
                  else pymin (ask_values agentO.mark emptyStore statePre [2, 5, 6, 7, 8]).1))
        ∧ (agentO.mark = 'O' → ∀ j, j < ([2, 5, 6, 7, 8] : List ℕ).length →
            (ask_values agentO.mark emptyStore statePre [2, 5, 6, 7, 8]).1.getD j 0
              ≤ pymax (ask_values agentO.mark emptyStore statePre [2, 5, 6, 7, 8]).1)
        ∧ (agentO.mark ≠ 'O' → ∀ j, j < ([2, 5, 6, 7, 8] : List ℕ).length →
            pymin (ask_values agentO.mark emptyStore statePre [2, 5, 6, 7, 8]).1
              ≤ (ask_values agentO.mark emptyStore statePre [2, 5, 6, 7, 8]).1.getD j 0)
        ∧ ((∃! i, i < ([2, 5, 6, 7, 8] : List ℕ).length
              ∧ (ask_values agentO.mark emptyStore statePre [2, 5, 6, 7, 8]).1.getD i 0
                = (if agentO.mark = 'O'
                    then pymax (ask_values agentO.mark emptyStore statePre [2, 5, 6, 7, 8]).1
                    else pymin (ask_values agentO.mark emptyStore statePre [2, 5, 6, 7, 8]).1)) →
            greedy_action agentO emptyStore statePre [2, 5, 6, 7, 8] pickHead
              = greedy_action agentO emptyStore statePre [2, 5, 6, 7, 8] pickHead)) := by
  have hhead : ∀ l : List ℕ, l ≠ [] → pickHead l ∈ l := by
    intro l hl
    match l, hl with
    | a :: t, _ => exact List.mem_cons_self a t
  exact ⟨by simp, hhead,
    greedy_action_optimal agentO emptyStore statePre [2, 5, 6, 7, 8] pickHead pickHead
      (by simp) hhead hhead⟩

/-! ### Model-file field parsing -/

/-- Claim C7 counterexample: the value field `1+1` is not a decimal
numeral — no output of the writer's format — so under the claim the line
must be rejected as a parse failure; instead the `eval`-based reader
accepts it and stores the evaluated result 2: the field text is evaluated
as code, not decoded by an inverse of the written encoding. -/
theorem load_line_eval_cex :
    parseNumeral ['1', '+', '1'] = none
      ∧ pyEvalNum ['1', '+', '1'] = some 2
      ∧ load_line [['0'], ['1', '+', '1'], ['3']] = some (2, 3) := by
  have h1 : pyEvalNum ['1', '+', '1'] = some 2 := by
    simp [pyEvalNum, splitFirst, parseNumeral, parseNumeralNonneg, parseNat, parseDigitsAux]
    norm_num
  have h3 : pyEvalNum ['3'] = some 3 := by
    simp [pyEvalNum, splitFirst, parseNumeral, parseNumeralNonneg, parseNat, parseDigitsAux]
  refine ⟨by decide, h1, ?_⟩
  simp [load_line, h1, h3]

/-- Claim C7 (amended): `load_model` evaluates each field as code rather
than with a structured decoder.  A line with fewer than three
tab-separated fields aborts the load (`IndexError`), as does a field that
is not a valid expression (`eval` raises); but a field that is a valid
expression outside the writer's numeric format — such as `1+1` — is
evaluated and accepted rather than rejected.  Fields in the writer's
format parse back to the written number. -/
theorem load_line_abort_amended :
    load_line [] = none
      ∧ (∀ f1 : Field, load_line [f1] = none)
      ∧ (∀ f1 f2 : Field, load_line [f1, f2] = none)
      ∧ (∀ st c rest, load_line (st :: ['a', 'b', 'c'] :: c :: rest) = none)
      ∧ (∀ st c rest cnt, pyEvalNum c = some cnt →
          load_line (st :: ['0', '.', '4', '0', '0'] :: c :: rest) = some (2 / 5, cnt))
      ∧ (∀ st c rest, pyEvalNum c = none →
          load_line (st :: ['0', '.', '4', '0', '0'] :: c :: rest) = none) := by
  have hbad : pyEvalNum ['a', 'b', 'c'] = none := by decide
  have h04 : pyEvalNum ['0', '.', '4', '0', '0'] = some (2 / 5) := by
    simp [pyEvalNum, splitFirst, parseNumeral, parseNumeralNonneg, parseNat, parseDigitsAux]
    norm_num
  refine ⟨rfl, fun _ => rfl, fun _ _ => rfl, ?_, ?_, ?_⟩
  · intro st c rest
    simp [load_line, hbad]
  · intro st c rest cnt hc
    simp [load_line, h04, hc]
  · intro st c rest hc
    simp [load_line, h04, hc]

/-- Witness for `load_line_abort_amended`: a well-formed line with value
field `0.400` and visit field `7` loads as the pair (2/5, 7). -/
theorem load_line_abort_amended_witness :
    pyEvalNum ['7'] = some 7
      ∧ load_line [['0'], ['0', '.', '4', '0', '0'], ['7']] = some (2 / 5, 7)
      ∧ load_line [['0'], ['0', '.', '4', '0', '0'], ['a', 'b', 'c']] = none := by
  have h7 : pyEvalNum ['7'] = some 7 := by
    simp [pyEvalNum, splitFirst, parseNumeral, parseNumeralNonneg, parseNat, parseDigitsAux]
  have hbad : pyEvalNum ['a', 'b', 'c'] = none := by decide
  exact ⟨h7,
    (load_line_abort_amended).2.2.2.2.1 ['0'] ['7'] [] 7 h7,
    (load_line_abort_amended).2.2.2.2.2 ['0'] ['a', 'b', 'c'] [] hbad⟩

end TdAgent
